import Mathlib

/-
Verification of the resource-allocation and system-composition layer of the
netv2 SoC build script (src/netv2.py), against its natural-language
specification.

The in-repository allocation core is embedded shallowly:
  * Python dictionaries over string keys and natural-number values become
    association lists with Python dict semantics: lookup returns the first
    binding, assignment replaces an existing binding in place and otherwise
    appends, and `d.update(e)` assigns every binding of `e` into `d` in order.
  * `csr_map_update` (src/netv2.py lines 47-49) is translated line by line.
  * The class-level `interrupt_map` and `mem_map` constructions
    (src/netv2.py lines 105-113) are translated as functions of the parent
    map that the source reads from the external base class.
  * The control flow of `NeTV2SoC.__init__` (src/netv2.py lines 118-290) is
    embedded as a function from the constructor flags to the list of
    composed peripherals together with the terminating Python error, if any.
Components that the specification assigns to this system but that live in
the external framework (the peripheral registry, the memory-region overlap
check, the clock-domain tracker, the descriptor renderer) are modelled from
the specification text and are marked as such in their doc comments.
-/

/-! ### Python dictionaries as association lists -/

/-- A Python dictionary with string keys and integer values, as the ordered
list of its bindings. -/
abbrev Dict := List (String × Nat)

/-- Dictionary lookup: the value of the first binding of the key. -/
def dictGet : Dict → String → Option Nat
  | [], _ => none
  | (a, b) :: d, k => if a = k then some b else dictGet d k

/-- Dictionary assignment, Python semantics: an existing binding of the key
is replaced in place (keeping its position), a new key is appended. -/
def dictSet : Dict → String → Nat → Dict
  | [], k, v => [(k, v)]
  | (a, b) :: d, k, v => if a = k then (k, v) :: d else (a, b) :: dictSet d k v

/-- Python `d.update(e)`: every binding of `e` is assigned into `d`, in the
order in which it appears in `e`. -/
def dictUpdate (d e : Dict) : Dict :=
  e.foldl (fun acc p => dictSet acc p.1 p.2) d

/-- Python `dict(pairs)`: the pairs are assigned one by one into an empty
dictionary, so a later pair with the same key overwrites an earlier one. -/
def dictOfPairs (l : List (String × Nat)) : Dict :=
  dictUpdate [] l

/-- The keys of a dictionary, in order. -/
def dictKeys (d : Dict) : List String :=
  d.map Prod.fst

/-- The values of a dictionary, in order. -/
def dictValues (d : Dict) : List Nat :=
  d.map Prod.snd

/-- Python `max(xs)`: `none` on an empty sequence (where CPython raises
`ValueError`), otherwise the greatest element. -/
def pyMax : List Nat → Option Nat
  | [] => none
  | x :: xs => some (xs.foldl max x)

/-- Python `enumerate(xs, start=s)`: the list of `(index, element)` pairs
with indices counted from `s`. -/
def pyEnumerateFrom : Nat → List String → List (Nat × String)
  | _, [] => []
  | s, x :: xs => (s, x) :: pyEnumerateFrom (s + 1) xs

/-! ### The allocation core from src/netv2.py -/

/-- The generator `((n, v) for v, n in enumerate(csr_peripherals, start=s))`
appearing inside `csr_map_update` (src/netv2.py line 48-49). -/
def newEntries (s : Nat) (ps : List String) : List (String × Nat) :=
  (pyEnumerateFrom s ps).map (fun vn => (vn.2, vn.1))

/-- Shallow embedding of `csr_map_update` (src/netv2.py lines 47-49):

    def csr_map_update(csr_map, csr_peripherals):
        csr_map.update(dict((n, v)
            for v, n in enumerate(csr_peripherals, start=max(csr_map.values()) + 1)))

The function mutates `csr_map`; here the updated dictionary is returned.
`max` of an empty sequence raises `ValueError` in Python, which is the
`none` result. -/
def csr_map_update (csr_map : Dict) (csr_peripherals : List String) : Option Dict :=
  match pyMax (dictValues csr_map) with
  | none => none
  | some m => some (dictUpdate csr_map (dictOfPairs (newEntries (m + 1) csr_peripherals)))

/-- The class-level peripheral name list `NeTV2SoC.csr_peripherals`
(src/netv2.py lines 81-102). -/
def csr_peripherals : List String :=
  ["crg", "dna", "xadc", "flash", "icap",
   "ddrphy",
   "ethphy", "ethmac",
   "pcie_phy", "pcie_dma0", "pcie_dma1", "pcie_msi",
   "hdmi_out0", "hdmi_in0", "hdmi_in0_freq", "hdmi_in0_edid_mem"]

/-- Shallow embedding of the class-level interrupt map construction
(src/netv2.py lines 105-108):

    interrupt_map = ("ethmac": 3)
    interrupt_map.update(SoCSDRAM.interrupt_map)

(the literal is written with Python braces in the source)

`parent` stands for the externally supplied `SoCSDRAM.interrupt_map`. -/
def netv2_interrupt_map (parent : Dict) : Dict :=
  dictUpdate [("ethmac", 3)] parent

/-- Shallow embedding of the class-level memory map construction
(src/netv2.py lines 110-113); `parent` stands for `SoCSDRAM.mem_map`. -/
def netv2_mem_map (parent : Dict) : Dict :=
  dictUpdate [("ethmac", 0x30000000)] parent

/-! ### Dictionary lemmas -/

theorem dictGet_dictSet_same (d : Dict) (k : String) (v : Nat) :
    dictGet (dictSet d k v) k = some v := by
  induction d with
  | nil => simp [dictSet, dictGet]
  | cons p d ih =>
    by_cases h : p.1 = k
    · simp [dictSet, h, dictGet]
    · simpa [dictSet, h, dictGet] using ih

theorem dictGet_dictSet_other (d : Dict) (a k : String) (v : Nat) (h : a ≠ k) :
    dictGet (dictSet d a v) k = dictGet d k := by
  induction d with
  | nil => simp [dictSet, dictGet, h]
  | cons p d ih =>
    rcases p with ⟨x, y⟩
    by_cases hp : x = a
    · simp [dictSet, hp, dictGet, h]
    · by_cases hk : x = k
      · simp [dictSet, hp, dictGet, hk, Ne.symm h]
      · simp [dictSet, hp, dictGet, hk, ih]

theorem mem_dictSet (d : Dict) (k : String) (v : Nat) (q : String × Nat)
    (hq : q ∈ dictSet d k v) : q ∈ d ∨ q = (k, v) := by
  induction d with
  | nil => simpa [dictSet] using hq
  | cons p d ih =>
    by_cases hp : p.1 = k
    · simp only [dictSet, hp, if_pos rfl] at hq
      rcases List.mem_cons.1 hq with h | h
      · exact Or.inr h
      · exact Or.inl (List.mem_cons_of_mem _ h)
    · simp only [dictSet, hp, if_neg hp] at hq
      rcases List.mem_cons.1 hq with h | h
      · exact Or.inl (h ▸ List.mem_cons_self _ _)
      · rcases ih h with h' | h'
        · exact Or.inl (List.mem_cons_of_mem _ h')
        · exact Or.inr h'

theorem dictKeys_dictSet_mem (d : Dict) (k : String) (v : Nat) :
    dictKeys (dictSet d k v) = dictKeys d ∨ dictKeys (dictSet d k v) = dictKeys d ++ [k] := by
  induction d with
  | nil => right; simp [dictSet, dictKeys]
  | cons p d ih =>
    by_cases hp : p.1 = k
    · left; simp [dictSet, hp, dictKeys]
    · rcases ih with h | h
      · left; simp [dictSet, hp, dictKeys, dictKeys] at h ⊢; exact h
      · right; simp [dictSet, hp, dictKeys] at h ⊢; exact h

/-- Assigning a key that is not present appends the binding. -/
theorem dictSet_fresh (d : Dict) (k : String) (v : Nat) (h : k ∉ dictKeys d) :
    dictSet d k v = d ++ [(k, v)] := by
  induction d with
  | nil => simp [dictSet]
  | cons p d ih =>
    simp only [dictKeys, List.map_cons, List.mem_cons] at h
    push_neg at h
    have hp : p.1 ≠ k := fun hh => h.1 hh.symm
    simp only [dictSet, if_neg hp, List.cons_append]
    exact congrArg (p :: ·) (ih (by simpa [dictKeys] using h.2))

/-- Updating with bindings whose keys are all fresh and mutually distinct
appends them. -/
theorem dictUpdate_fresh (e : List (String × Nat)) :
    ∀ d : Dict, (∀ p ∈ e, p.1 ∉ dictKeys d) → (e.map Prod.fst).Nodup →
      dictUpdate d e = d ++ e := by
  induction e with
  | nil => intro d _ _; simp [dictUpdate]
  | cons p e ih =>
    intro d hfresh hnd
    simp only [List.map_cons, List.nodup_cons] at hnd
    have h1 : dictSet d p.1 p.2 = d ++ [p] :=
      dictSet_fresh d p.1 p.2 (hfresh p (List.mem_cons_self _ _))
    have h2 : dictUpdate (dictSet d p.1 p.2) e = dictSet d p.1 p.2 ++ e := by
      apply ih
      · intro q hq
        rw [h1]
        simp only [dictKeys, List.map_append, List.mem_append, List.map_cons]
        push_neg
        refine ⟨hfresh q (List.mem_cons_of_mem _ hq), ?_⟩
        simp only [List.map_nil, List.mem_singleton]
        intro hqp
        exact hnd.1 (hqp ▸ List.mem_map_of_mem Prod.fst hq)
      · exact hnd.2
    calc dictUpdate d (p :: e) = dictUpdate (dictSet d p.1 p.2) e := rfl
      _ = dictSet d p.1 p.2 ++ e := h2
      _ = d ++ [p] ++ e := by rw [h1]
      _ = d ++ (p :: e) := by simp

/-- Building a dictionary from pairs with mutually distinct keys keeps the
pairs as they are. -/
theorem dictOfPairs_nodup (l : List (String × Nat)) (h : (l.map Prod.fst).Nodup) :
    dictOfPairs l = l := by
  have := dictUpdate_fresh l [] (by intro p _; simp [dictKeys]) h
  simpa [dictOfPairs] using this

/-- Updating with bindings none of which mentions the key leaves its lookup
unchanged. -/
theorem dictGet_dictUpdate_notin (e : List (String × Nat)) :
    ∀ d : Dict, ∀ k : String, (∀ p ∈ e, p.1 ≠ k) →
      dictGet (dictUpdate d e) k = dictGet d k := by
  induction e with
  | nil => intro d k _; rfl
  | cons p e ih =>
    intro d k h
    calc dictGet (dictUpdate d (p :: e)) k
        = dictGet (dictUpdate (dictSet d p.1 p.2) e) k := rfl
      _ = dictGet (dictSet d p.1 p.2) k := ih _ k (fun q hq => h q (List.mem_cons_of_mem _ hq))
      _ = dictGet d k := dictGet_dictSet_other d p.1 k p.2 (h p (List.mem_cons_self _ _))

/-- Lookup after an update with mutually distinct keys: a key bound in the
update takes its value from there, any other key keeps its old value. -/
theorem dictGet_dictUpdate_nodup (e : List (String × Nat)) :
    ∀ d : Dict, ∀ k : String, (e.map Prod.fst).Nodup →
      dictGet (dictUpdate d e) k =
        match dictGet e k with
        | some v => some v
        | none => dictGet d k := by
  induction e with
  | nil => intro d k _; rfl
  | cons p e ih =>
    intro d k hnd
    simp only [List.map_cons, List.nodup_cons] at hnd
    by_cases hk : p.1 = k
    · have hno : ∀ q ∈ e, q.1 ≠ k := by
        intro q hq hqk
        exact hnd.1 (by rw [← hk] at hqk; exact hqk ▸ List.mem_map_of_mem Prod.fst hq)
      calc dictGet (dictUpdate d (p :: e)) k
          = dictGet (dictUpdate (dictSet d p.1 p.2) e) k := rfl
        _ = dictGet (dictSet d p.1 p.2) k := dictGet_dictUpdate_notin e _ k hno
        _ = some p.2 := by rw [← hk]; exact dictGet_dictSet_same d p.1 p.2
      simp [dictGet, hk]
    · have := ih (dictSet d p.1 p.2) k hnd.2
      calc dictGet (dictUpdate d (p :: e)) k
          = dictGet (dictUpdate (dictSet d p.1 p.2) e) k := rfl
        _ = _ := this
      rw [dictGet_dictSet_other d p.1 k p.2 hk]
      have hgp : dictGet (p :: e) k = dictGet e k := by
        rcases p with ⟨a, b⟩
        simp only at hk
        simp [dictGet, hk]
      rw [hgp]

/-- Lookup distributes over append: the left dictionary is consulted
first. -/
theorem dictGet_append (d e : Dict) (k : String) :
    dictGet (d ++ e) k =
      match dictGet d k with
      | some v => some v
      | none => dictGet e k := by
  induction d with
  | nil => rfl
  | cons p d ih =>
    rcases p with ⟨a, b⟩
    by_cases h : a = k
    · simp [dictGet, h]
    · simpa [dictGet, h] using ih

/-- A key is absent from a dictionary exactly when its lookup fails. -/
theorem dictGet_eq_none_iff (d : Dict) (k : String) :
    dictGet d k = none ↔ k ∉ dictKeys d := by
  induction d with
  | nil => simp [dictGet, dictKeys]
  | cons p d ih =>
    rcases p with ⟨a, b⟩
    by_cases h : a = k
    · simp [dictGet, h, dictKeys]
    · simp [dictGet, h, dictKeys, ih, Ne.symm h]

/-! ### pyMax and enumerate lemmas -/

theorem foldl_max_le_init (l : List Nat) : ∀ x : Nat, x ≤ l.foldl max x := by
  induction l with
  | nil => intro x; exact Nat.le_refl x
  | cons a l ih => intro x; exact le_trans (le_max_left x a) (ih (max x a))

theorem mem_le_foldl_max (l : List Nat) :
    ∀ x : Nat, ∀ w ∈ l, w ≤ l.foldl max x := by
  induction l with
  | nil => intro x w hw; cases hw
  | cons a l ih =>
    intro x w hw
    rcases List.mem_cons.1 hw with h | h
    · subst h
      exact le_trans (le_max_right x w) (foldl_max_le_init l (max x w))
    · exact ih (max x a) w h

/-- Every value of the dictionary is bounded by `pyMax` of the values. -/
theorem pyMax_is_ub (d : Dict) (m : Nat) (h : pyMax (dictValues d) = some m) :
    ∀ w ∈ dictValues d, w ≤ m := by
  intro w hw
  cases hd : dictValues d with
  | nil => rw [hd] at hw; cases hw
  | cons x xs =>
    rw [hd] at h hw
    simp only [pyMax, Option.some.injEq] at h
    rcases List.mem_cons.1 hw with h' | h'
    · subst h'; rw [← h]; exact foldl_max_le_init xs w
    · rw [← h]; exact mem_le_foldl_max xs x w h'

/-- The keys produced by the enumeration generator are exactly the
enumerated names, in order. -/
theorem newEntries_keys (ps : List String) : ∀ s : Nat, (newEntries s ps).map Prod.fst = ps := by
  induction ps with
  | nil => intro s; rfl
  | cons p ps ih =>
    intro s
    simp only [newEntries, pyEnumerateFrom, List.map_cons]
    exact congrArg (p :: ·) (ih (s + 1))

/-- Every name of the list is bound by the enumeration generator to an
ordinal that is at least the starting ordinal. -/
theorem newEntries_get (ps : List String) :
    ∀ s : Nat, ∀ p ∈ ps, ∃ i, i < ps.length ∧ dictGet (newEntries s ps) p = some (s + i) := by
  induction ps with
  | nil => intro s p hp; cases hp
  | cons q ps ih =>
    intro s p hp
    by_cases hq : q = p
    · refine ⟨0, Nat.succ_pos _, ?_⟩
      simp [newEntries, pyEnumerateFrom, dictGet, hq]
    · rcases List.mem_cons.1 hp with h | h
      · exact absurd h.symm hq
      · rcases ih (s + 1) p h with ⟨i, hi, hget⟩
        refine ⟨i + 1, by simpa using Nat.succ_lt_succ hi, ?_⟩
        have hstep : dictGet (newEntries s (q :: ps)) p = dictGet (newEntries (s + 1) ps) p := by
          simp [newEntries, pyEnumerateFrom, dictGet, hq]
        rw [hstep, hget]
        congr 1
        omega

/-- The values produced by the enumeration generator, starting at `s`, are
all at least `s`. -/
theorem newEntries_values_ge (ps : List String) :
    ∀ s : Nat, ∀ w ∈ (newEntries s ps).map Prod.snd, s ≤ w := by
  induction ps with
  | nil => intro s w hw; cases hw
  | cons q ps ih =>
    intro s w hw
    simp only [newEntries, pyEnumerateFrom, List.map_cons, List.mem_cons] at hw
    rcases hw with h | h
    · exact h ▸ Nat.le_refl s
    · exact le_trans (Nat.le_succ s) (ih (s + 1) w (by simpa [newEntries] using h))

/-- The values produced by the enumeration generator are mutually
distinct. -/
theorem newEntries_values_nodup (ps : List String) :
    ∀ s : Nat, ((newEntries s ps).map Prod.snd).Nodup := by
  induction ps with
  | nil => intro s; simp [newEntries, pyEnumerateFrom]
  | cons q ps ih =>
    intro s
    simp only [newEntries, pyEnumerateFrom, List.map_cons, List.nodup_cons]
    refine ⟨?_, by simpa [newEntries] using ih (s + 1)⟩
    intro hmem
    have := newEntries_values_ge ps (s + 1) s (by simpa [newEntries] using hmem)
    omega

example : csr_map_update [("a", 0), ("b", 1), ("c", 2)] ["d"] =
    some [("a", 0), ("b", 1), ("c", 2), ("d", 3)] := by decide

example : csr_map_update [("a", 0)] ["a"] = some [("a", 1)] := by decide

example : netv2_interrupt_map [("uart", 3)] = [("ethmac", 3), ("uart", 3)] := by decide

/-! ### Structure of a csr_map_update run -/

/-- On a nonempty map and fresh, mutually distinct names, `csr_map_update`
appends the enumerated bindings, starting one past the maximal existing
ordinal. -/
theorem csr_map_update_eq (m : Dict) (ps : List String) (M : Nat)
    (hM : pyMax (dictValues m) = some M)
    (hnd : ps.Nodup)
    (hfresh : ∀ p ∈ ps, p ∉ dictKeys m) :
    csr_map_update m ps = some (m ++ newEntries (M + 1) ps) := by
  have hkeys : (newEntries (M + 1) ps).map Prod.fst = ps := newEntries_keys ps (M + 1)
  have hpairs : dictOfPairs (newEntries (M + 1) ps) = newEntries (M + 1) ps :=
    dictOfPairs_nodup _ (by rw [hkeys]; exact hnd)
  have hupd : dictUpdate m (newEntries (M + 1) ps) = m ++ newEntries (M + 1) ps := by
    apply dictUpdate_fresh
    · intro p hp
      exact hfresh p.1 (by rw [← hkeys]; exact List.mem_map_of_mem Prod.fst hp)
    · rw [hkeys]; exact hnd
  simp [csr_map_update, hM, hpairs, hupd]

/-- C1: for every successful `csr_map_update` run extending a nonempty map
with fresh, mutually distinct peripheral names, every newly assigned
ordinal is strictly greater than every ordinal already allocated in the
register namespace, and every pre-existing binding is returned unchanged.
The empty-namespace side of the claim is vacuous: on an empty map, Python
`max` raises, so no ordinal is returned at all. -/
theorem csr_map_update_allocates_above (m m2 : Dict) (ps : List String) (M : Nat)
    (hM : pyMax (dictValues m) = some M)
    (hnd : ps.Nodup)
    (hfresh : ∀ p ∈ ps, p ∉ dictKeys m)
    (hrun : csr_map_update m ps = some m2) :
    (∀ k v, dictGet m k = some v → dictGet m2 k = some v) ∧
    (∀ p ∈ ps, ∃ v, dictGet m2 p = some v ∧ ∀ w ∈ dictValues m, w < v) := by
  have heq := csr_map_update_eq m ps M hM hnd hfresh
  rw [heq] at hrun
  injection hrun with hrun
  subst hrun
  constructor
  · intro k v hv
    rw [dictGet_append]
    simp [hv]
  · intro p hp
    rcases newEntries_get ps (M + 1) p hp with ⟨i, _, hget⟩
    refine ⟨M + 1 + i, ?_, ?_⟩
    · have hnone : dictGet m p = none := (dictGet_eq_none_iff m p).2 (hfresh p hp)
      rw [dictGet_append, hnone, hget]
    · intro w hw
      have := pyMax_is_ub m M hM w hw
      omega

/-- Witness for C1: the register namespace `a, b, c` with ordinals
`0, 1, 2` extended with one new peripheral `d` assigns `d` the ordinal `3`
and keeps `0, 1, 2` unchanged. -/
theorem csr_map_update_allocates_above_witness :
    (csr_map_update [("a", 0), ("b", 1), ("c", 2)] ["d"] =
      some [("a", 0), ("b", 1), ("c", 2), ("d", 3)]) ∧
    (dictGet [("a", 0), ("b", 1), ("c", 2), ("d", 3)] "d" = some 3) ∧
    ((∀ k v, dictGet [("a", 0), ("b", 1), ("c", 2)] k = some v →
        dictGet [("a", 0), ("b", 1), ("c", 2), ("d", 3)] k = some v) ∧
      (∀ p ∈ ["d"], ∃ v, dictGet [("a", 0), ("b", 1), ("c", 2), ("d", 3)] p = some v ∧
        ∀ w ∈ dictValues [("a", 0), ("b", 1), ("c", 2)], w < v)) :=
  ⟨by decide, by decide,
    csr_map_update_allocates_above _ _ ["d"] 2 (by decide) (by decide) (by decide) (by decide)⟩

/-- Counterexample for C2: allocating the name `a` again in a map that
already binds `a` to ordinal `0` does not return the previous ordinal
unchanged; the binding is renumbered to `1` by the dictionary update. -/
theorem csr_map_update_renumbers_cex :
    csr_map_update [("a", 0)] ["a"] = some [("a", 1)] ∧
    dictGet [("a", 0)] "a" = some 0 ∧
    dictGet [("a", 1)] "a" = some 1 ∧ (1 : Nat) ≠ 0 := by decide

/-- C2 as amended: `csr_map_update` is not an idempotent lookup. A name
passed again to the allocator is overwritten with a fresh ordinal strictly
greater than every ordinal previously in the map, while every name not
re-allocated keeps its binding unchanged. -/
theorem csr_map_update_overwrites (m m2 : Dict) (ps : List String) (M : Nat)
    (hM : pyMax (dictValues m) = some M)
    (hnd : ps.Nodup)
    (hrun : csr_map_update m ps = some m2) :
    (∀ k, k ∉ ps → dictGet m2 k = dictGet m k) ∧
    (∀ p ∈ ps, ∃ v, dictGet m2 p = some v ∧ ∀ w ∈ dictValues m, w < v) := by
  have hkeys : (newEntries (M + 1) ps).map Prod.fst = ps := newEntries_keys ps (M + 1)
  have hpairs : dictOfPairs (newEntries (M + 1) ps) = newEntries (M + 1) ps :=
    dictOfPairs_nodup _ (by rw [hkeys]; exact hnd)
  have hm2 : some (dictUpdate m (newEntries (M + 1) ps)) = some m2 := by
    rw [← hrun]; simp [csr_map_update, hM, hpairs]
  injection hm2 with hm2
  subst hm2
  constructor
  · intro k hk
    apply dictGet_dictUpdate_notin
    intro p hp hpk
    apply hk
    rw [← hpk, ← hkeys]
    exact List.mem_map_of_mem Prod.fst hp
  · intro p hp
    rcases newEntries_get ps (M + 1) p hp with ⟨i, _, hget⟩
    have hupd := dictGet_dictUpdate_nodup (newEntries (M + 1) ps) m p
      (by rw [hkeys]; exact hnd)
    refine ⟨M + 1 + i, ?_, ?_⟩
    · rw [hupd, hget]
    · intro w hw
      have := pyMax_is_ub m M hM w hw
      omega

/-- Witness for the amended C2: re-allocating `a` in the one-entry map
binding `a` to `0` yields the strictly larger ordinal `1`, and any name
other than `a` is looked up unchanged. -/
theorem csr_map_update_overwrites_witness :
    (csr_map_update [("a", 0)] ["a"] = some [("a", 1)]) ∧
    ((∀ k, k ∉ ["a"] → dictGet [("a", 1)] k = dictGet [("a", 0)] k) ∧
      (∀ p ∈ ["a"], ∃ v, dictGet [("a", 1)] p = some v ∧
        ∀ w ∈ dictValues [("a", 0)], w < v)) :=
  ⟨by decide, csr_map_update_overwrites _ _ ["a"] 0 (by decide) (by decide) (by decide)⟩

/-- Counterexample for C3: there is no conflict detection in the interrupt
map construction. With a parent map binding `uart` to the ordinal `3`, the
ordinal requested for `ethmac` is already taken, yet the merge returns a
map (with both names on ordinal `3`); and with a parent map binding
`ethmac` to `5`, the existing assignment `ethmac = 3` is silently replaced. -/
theorem interrupt_map_no_conflict_error_cex :
    netv2_interrupt_map [("uart", 3)] = [("ethmac", 3), ("uart", 3)] ∧
    netv2_interrupt_map [("ethmac", 5)] = [("ethmac", 5)] ∧
    dictGet [("ethmac", 3)] "ethmac" = some 3 ∧
    dictGet (netv2_interrupt_map [("ethmac", 5)]) "ethmac" = some 5 := by decide

/-- C3 as amended: the interrupt map is built by a plain dictionary merge
that always succeeds. A key bound in the parent map takes the parent value
(silently overriding the local request), any other key keeps the local
binding; no ordinal collision is ever detected. -/
theorem interrupt_map_parent_wins (parent : Dict) (k : String)
    (hnd : (parent.map Prod.fst).Nodup) :
    dictGet (netv2_interrupt_map parent) k =
      match dictGet parent k with
      | some v => some v
      | none => dictGet [("ethmac", 3)] k :=
  dictGet_dictUpdate_nodup parent [("ethmac", 3)] k hnd

/-- Witness for the amended C3: with the parent map `uart = 2, timer0 = 1`,
the merged interrupt map keeps `ethmac = 3` and takes `uart = 2` from the
parent. -/
theorem interrupt_map_parent_wins_witness :
    (dictGet (netv2_interrupt_map [("uart", 2), ("timer0", 1)]) "ethmac" =
      match dictGet [("uart", 2), ("timer0", 1)] "ethmac" with
      | some v => some v
      | none => dictGet [("ethmac", 3)] "ethmac") ∧
    dictGet (netv2_interrupt_map [("uart", 2), ("timer0", 1)]) "uart" = some 2 :=
  ⟨interrupt_map_parent_wins [("uart", 2), ("timer0", 1)] "ethmac" (by decide), by decide⟩

/-- Counterexample for C6: uniqueness does not hold in the interrupt kind.
With a parent interrupt map binding `uart` to `3`, the merged map gives the
two enabled peripherals `ethmac` and `uart` the same ordinal `3`. -/
theorem interrupt_map_shared_ordinal_cex :
    dictGet (netv2_interrupt_map [("uart", 3)]) "ethmac" = some 3 ∧
    dictGet (netv2_interrupt_map [("uart", 3)]) "uart" = some 3 ∧
    "ethmac" ≠ "uart" := by decide

/-- C6 as amended: in the register-window kind, extending an injective
nonempty base map with fresh, mutually distinct names yields a map in which
every name occurs exactly once, no two names share an ordinal, and every
requested peripheral received an ordinal. (The interrupt and memory kinds
are merged without any such check.) -/
theorem csr_map_update_unique_ordinals (m m2 : Dict) (ps : List String) (M : Nat)
    (hM : pyMax (dictValues m) = some M)
    (hnd : ps.Nodup)
    (hfresh : ∀ p ∈ ps, p ∉ dictKeys m)
    (hkeysnd : (dictKeys m).Nodup)
    (hvalsnd : (dictValues m).Nodup)
    (hrun : csr_map_update m ps = some m2) :
    (dictKeys m2).Nodup ∧ (dictValues m2).Nodup ∧
    (∀ p ∈ ps, ∃ v, dictGet m2 p = some v) := by
  have heq := csr_map_update_eq m ps M hM hnd hfresh
  rw [heq] at hrun
  injection hrun with hrun
  subst hrun
  have hkeys : (newEntries (M + 1) ps).map Prod.fst = ps := newEntries_keys ps (M + 1)
  refine ⟨?_, ?_, ?_⟩
  · have : dictKeys (m ++ newEntries (M + 1) ps) = dictKeys m ++ ps := by
      simp [dictKeys, hkeys]
    rw [this]
    exact List.Nodup.append hkeysnd hnd (fun a ha hb => hfresh a hb ha)
  · have : dictValues (m ++ newEntries (M + 1) ps) =
        dictValues m ++ (newEntries (M + 1) ps).map Prod.snd := by
      simp [dictValues]
    rw [this]
    refine List.Nodup.append hvalsnd (newEntries_values_nodup ps (M + 1)) ?_
    intro w hw hw2
    have h1 := pyMax_is_ub m M hM w hw
    have h2 := newEntries_values_ge ps (M + 1) w hw2
    omega
  · intro p hp
    rcases newEntries_get ps (M + 1) p hp with ⟨i, _, hget⟩
    have hnone : dictGet m p = none := (dictGet_eq_none_iff m p).2 (hfresh p hp)
    exact ⟨M + 1 + i, by rw [dictGet_append, hnone, hget]⟩

/-- Witness for the amended C6: extending the injective base map
`a = 0, b = 1` with the two fresh names `x, y` keeps keys and ordinals
mutually distinct and gives both names an ordinal. -/
theorem csr_map_update_unique_ordinals_witness :
    (csr_map_update [("a", 0), ("b", 1)] ["x", "y"] =
      some [("a", 0), ("b", 1), ("x", 2), ("y", 3)]) ∧
    ((dictKeys [("a", 0), ("b", 1), ("x", 2), ("y", 3)]).Nodup ∧
      (dictValues [("a", 0), ("b", 1), ("x", 2), ("y", 3)]).Nodup ∧
      (∀ p ∈ ["x", "y"], ∃ v, dictGet [("a", 0), ("b", 1), ("x", 2), ("y", 3)] p = some v)) :=
  ⟨by decide,
    csr_map_update_unique_ordinals [("a", 0), ("b", 1)]
      [("a", 0), ("b", 1), ("x", 2), ("y", 3)] ["x", "y"] 1
      (by decide) (by decide) (by decide) (by decide) (by decide) (by decide)⟩

/-! ### The constructor control flow of NeTV2SoC -/

/-- A Python runtime error terminating the constructor pass. -/
inductive PyError where
  | nameError (n : String)
  | assertionError
deriving DecidableEq

/-- The keyword arguments of `NeTV2SoC.__init__` with their declared
defaults (src/netv2.py lines 118-123). -/
structure InitArgs where
  with_sdram : Bool := true
  with_ethernet : Bool := false
  with_etherbone : Bool := true
  with_pcie : Bool := false
  with_hdmi_in0 : Bool := true
  with_hdmi_out0 : Bool := true
deriving DecidableEq

/-- The observable outcome of one constructor run: the peripherals composed
before the run ended, and the Python error that terminated it, if any. -/
structure InitResult where
  composed : List String
  error : Option PyError
deriving DecidableEq

/-- Shallow embedding of the control flow of `NeTV2SoC.__init__`
(src/netv2.py lines 118-290).

Line 124 reads `assert not (with_pcie and with_interboard_communication)`.
Python `and` short-circuits: the right operand is evaluated only when
`with_pcie` is truthy, and the name `with_interboard_communication` is
bound nowhere in the file, so evaluating it raises `NameError`; when
`with_pcie` is falsy the assertion condition is `False` without the
undefined name being read, and the assert passes.

After that, peripherals are composed in source order: crg, dna, xadc, icap
and flash unconditionally (lines 138-151), the sdram subsystem under
`with_sdram` (lines 154-163), the ethernet pair under `with_ethernet`
(lines 165-175), the etherbone stack under `with_etherbone` (lines
178-189), the pcie stack under `with_pcie` (lines 192-218, skipped here
since this branch has `with_pcie` false), and the hdmi in/out 0 pipelines
under their flags (lines 221-248). Line 251 then reads `if with_hdmi_in1:`
where `with_hdmi_in1` is bound nowhere (the parameters are
`with_hdmi_in0`/`with_hdmi_out0` only), raising `NameError` before the
trailing code (and before line 268, whose `with_hdmi_out1` is equally
unbound). External attribute accesses are assumed to succeed; only the
local-name semantics decidable from this file is modelled. -/
def NeTV2SoC_init (a : InitArgs) : InitResult :=
  if a.with_pcie then
    { composed := [], error := some (PyError.nameError "with_interboard_communication") }
  else
    let c := ["crg", "dna", "xadc", "icap", "flash"]
    let c := if a.with_sdram then c ++ ["ddrphy", "sdram"] else c
    let c := if a.with_ethernet then c ++ ["ethphy", "ethmac"] else c
    let c := if a.with_etherbone then c ++ ["ethphy", "ethcore", "etherbone"] else c
    let c := if a.with_hdmi_in0 then c ++ ["hdmi_in0_freq", "hdmi_in0"] else c
    let c := if a.with_hdmi_out0 then c ++ ["hdmi_out0"] else c
    { composed := c, error := some (PyError.nameError "with_hdmi_in1") }

/-- C5 (the code against the claimed behaviour): with pcie enabled, the
mutual-exclusion assertion on line 124 terminates the constructor before
any peripheral is composed, but with `NameError` on the never-defined name
`with_interboard_communication`, not with a constraint violation; the
other peripheral of the declared exclusive pair cannot even be enabled,
since no such parameter exists. -/
theorem NeTV2SoC_init_mutex_check_name_error :
    NeTV2SoC_init ⟨true, false, true, true, true, true⟩ =
      ⟨[], some (PyError.nameError "with_interboard_communication")⟩ := by decide

/-- Counterexample for C10: with the default arguments (`with_pcie` false)
the constructor does not raise before any peripheral is composed; it
composes crg and the other enabled peripherals first and only then hits
the `NameError` on `with_hdmi_in1` at line 251. -/
theorem NeTV2SoC_init_composes_before_error_cex :
    (NeTV2SoC_init ⟨true, false, true, false, true, true⟩).composed ≠ [] ∧
    "crg" ∈ (NeTV2SoC_init ⟨true, false, true, false, true, true⟩).composed ∧
    (NeTV2SoC_init ⟨true, false, true, false, true, true⟩).error =
      some (PyError.nameError "with_hdmi_in1") := by decide

/-- C10 as amended: every constructor run raises a `NameError`, so
`NeTV2SoC.__init__` can never complete; with `with_pcie` set it is raised
at line 124 (undefined `with_interboard_communication`) before any
peripheral is composed, and otherwise at line 251 (undefined
`with_hdmi_in1`) after the earlier enabled peripherals were already
composed. -/
theorem NeTV2SoC_init_never_completes (a : InitArgs) :
    (a.with_pcie = true →
      NeTV2SoC_init a =
        ⟨[], some (PyError.nameError "with_interboard_communication")⟩) ∧
    (a.with_pcie = false →
      (NeTV2SoC_init a).error = some (PyError.nameError "with_hdmi_in1") ∧
      "crg" ∈ (NeTV2SoC_init a).composed) := by
  rcases a with ⟨s, e, eb, p, h0, o0⟩
  cases s <;> cases e <;> cases eb <;> cases p <;> cases h0 <;> cases o0 <;> decide

/-- Witness for the amended C10, at both kinds of input: with pcie the
constructor dies on `with_interboard_communication` having composed
nothing; with the defaults it dies on `with_hdmi_in1` having already
composed crg. -/
theorem NeTV2SoC_init_never_completes_witness :
    (NeTV2SoC_init ⟨true, false, true, true, true, true⟩ =
      ⟨[], some (PyError.nameError "with_interboard_communication")⟩) ∧
    ((NeTV2SoC_init ⟨true, false, true, false, true, true⟩).error =
      some (PyError.nameError "with_hdmi_in1") ∧
      "crg" ∈ (NeTV2SoC_init ⟨true, false, true, false, true, true⟩).composed) :=
  ⟨(NeTV2SoC_init_never_completes ⟨true, false, true, true, true, true⟩).1 rfl,
    (NeTV2SoC_init_never_completes ⟨true, false, true, false, true, true⟩).2 rfl⟩

/-! ### Components modelled from the specification -/

/-- The error taxonomy of the specification (section 7): duplicate
peripheral name, explicit ordinal collision, memory-region address
collision, and mutually-exclusive peripherals both enabled. -/
inductive SpecError where
  | duplicateNameError
  | conflictError
  | overlapError
  | constraintViolation
deriving DecidableEq

/-- A declared peripheral resource request (specification section 3):
name, enablement, register-window and interrupt requests, and an optional
memory request as a base hint and a size. -/
structure PeripheralSpec where
  name : String
  enabled : Bool
  wants_register_window : Bool
  wants_interrupt : Bool
  memory_request : Option (Nat × Nat)
deriving DecidableEq

/-- Modelled from the spec: the Peripheral Registry operation
`register(spec)` of section 4.2, which is absent from src/ (peripheral
registration in the source happens inside the external migen submodule
machinery, e.g. the double `ethphy` assignment at src/netv2.py lines 166
and 179). Registration appends the spec preserving order, and a second
registration under an already registered name fails with
`DuplicateNameError`. -/
def register (reg : List PeripheralSpec) (s : PeripheralSpec) :
    Except SpecError (List PeripheralSpec) :=
  if reg.any (fun r => r.name == s.name) then Except.error SpecError.duplicateNameError
  else Except.ok (reg ++ [s])

/-- C4: registering a name that is not yet present succeeds, and a second
registration of a spec with the same name fails with `DuplicateNameError`,
leaving the first registration in effect in the registry. -/
theorem register_duplicate_name (reg : List PeripheralSpec) (s t : PeripheralSpec)
    (hfresh : ∀ r ∈ reg, r.name ≠ s.name) (hname : t.name = s.name) :
    register reg s = Except.ok (reg ++ [s]) ∧
    register (reg ++ [s]) t = Except.error SpecError.duplicateNameError ∧
    s ∈ reg ++ [s] := by
  refine ⟨?_, ?_, by simp⟩
  · have hany : reg.any (fun r => r.name == s.name) = false := by
      simp only [List.any_eq_false]
      intro r hr
      simpa using hfresh r hr
    simp [register, hany]
  · have hany : (reg ++ [s]).any (fun r => r.name == t.name) = true := by
      refine List.any_eq_true.2 ⟨s, by simp, ?_⟩
      simp [hname]
    simp [register, hany]

/-- Witness for C4: the peripheral `ethmac` registers once into the empty
registry and a second registration of `ethmac` fails with
`DuplicateNameError`, the first staying in the registry. -/
theorem register_duplicate_name_witness :
    register [] ⟨"ethmac", true, true, true, none⟩ =
      Except.ok ([] ++ [⟨"ethmac", true, true, true, none⟩]) ∧
    register ([] ++ [⟨"ethmac", true, true, true, none⟩]) ⟨"ethmac", true, true, true, none⟩ =
      Except.error SpecError.duplicateNameError ∧
    (⟨"ethmac", true, true, true, none⟩ : PeripheralSpec) ∈
      [] ++ [(⟨"ethmac", true, true, true, none⟩ : PeripheralSpec)] :=
  register_duplicate_name [] ⟨"ethmac", true, true, true, none⟩
    ⟨"ethmac", true, true, true, none⟩ (by simp) rfl

/-- A memory region (specification section 3): a named contiguous address
range. -/
structure MemoryRegion where
  name : String
  base : Nat
  size : Nat
deriving DecidableEq

/-- Two regions overlap when their half-open address intervals
intersect. -/
def regionsOverlap (r s : MemoryRegion) : Bool :=
  decide (r.base < s.base + s.size) && decide (s.base < r.base + r.size)

/-- Modelled from the spec: the memory-region allocation check of the
Composition Engine (sections 4.4 and 7), absent from src/ (the call at
src/netv2.py line 170 delegates to `add_memory_region` of the external SoC
base class). Allocation fails with `OverlapError` when the new region
overlaps any previously registered region, and otherwise appends it. -/
def add_memory_region (regions : List MemoryRegion) (r : MemoryRegion) :
    Except SpecError (List MemoryRegion) :=
  if regions.any (fun s => regionsOverlap s r) then Except.error SpecError.overlapError
  else Except.ok (regions ++ [r])

/-- An address lies inside a region. -/
def containsAddr (r : MemoryRegion) (a : Nat) : Prop :=
  r.base ≤ a ∧ a < r.base + r.size

/-- C7: allocating a region that shares even one address with a previously
registered region fails with `OverlapError`. -/
theorem add_memory_region_overlap_error (regions : List MemoryRegion)
    (r s : MemoryRegion) (a : Nat)
    (hs : s ∈ regions) (ha : containsAddr s a) (hb : containsAddr r a) :
    add_memory_region regions r = Except.error SpecError.overlapError := by
  have hov : regionsOverlap s r = true := by
    rcases ha with ⟨h1, h2⟩
    rcases hb with ⟨h3, h4⟩
    simp only [regionsOverlap, Bool.and_eq_true, decide_eq_true_eq]
    omega
  have hany : regions.any (fun q => regionsOverlap q r) = true :=
    List.any_eq_true.2 ⟨s, hs, hov⟩
  simp [add_memory_region, hany]

/-- Witness for C7: the regions with base 0x1000 and size 0x1000 and with
base 0x1800 and size 0x100 share the address 0x1800 and the allocation of
the second raises `OverlapError`. -/
theorem add_memory_region_overlap_error_witness :
    (⟨"main_ram", 0x1000, 0x1000⟩ : MemoryRegion) ∈
      [(⟨"main_ram", 0x1000, 0x1000⟩ : MemoryRegion)] ∧
    containsAddr ⟨"main_ram", 0x1000, 0x1000⟩ 0x1800 ∧
    containsAddr ⟨"ethmac", 0x1800, 0x100⟩ 0x1800 ∧
    add_memory_region [⟨"main_ram", 0x1000, 0x1000⟩] ⟨"ethmac", 0x1800, 0x100⟩ =
      Except.error SpecError.overlapError :=
  ⟨by simp, ⟨by decide, by decide⟩, ⟨by decide, by decide⟩,
    add_memory_region_overlap_error [⟨"main_ram", 0x1000, 0x1000⟩] ⟨"ethmac", 0x1800, 0x100⟩
      ⟨"main_ram", 0x1000, 0x1000⟩ 0x1800 (by simp) ⟨by decide, by decide⟩
      ⟨by decide, by decide⟩⟩

/-- An unordered clock-domain pair, kept in normalised order (specification
section 3, ClockDomainEdge). -/
def normEdge (a b : String) : String × String :=
  if a ≤ b then (a, b) else (b, a)

/-- Modelled from the spec: the Clock-Domain Relationship Tracker operation
`declare_crossing` of section 4.3, absent from src/ (the calls at
src/netv2.py lines 172-175 and 186-189 delegate to
`add_false_path_constraints` of the external platform object). Declaring
an edge inserts its normalised pair unless it is already present. -/
def declare_crossing (edges : List (String × String)) (a b : String) :
    List (String × String) :=
  if normEdge a b ∈ edges then edges else edges ++ [normEdge a b]

/-- C8: declaring the same clock-domain edge twice is not an error and
leaves exactly one copy of the edge; the order of the two domains does not
matter. -/
theorem declare_crossing_idempotent (edges : List (String × String)) (a b : String)
    (h : List.count (normEdge a b) edges ≤ 1) :
    declare_crossing (declare_crossing edges a b) a b = declare_crossing edges a b ∧
    List.count (normEdge a b) (declare_crossing edges a b) = 1 ∧
    declare_crossing edges a b = declare_crossing edges b a := by
  have hsymm : normEdge a b = normEdge b a := by
    unfold normEdge
    rcases le_or_lt a b with hab | hab
    · rcases lt_or_eq_of_le hab with h1 | h1
      · rw [if_pos hab, if_neg (not_le.2 h1)]
      · subst h1; simp
    · rw [if_neg (not_le.2 hab), if_pos (le_of_lt hab)]
  refine ⟨?_, ?_, by simp only [declare_crossing, hsymm]⟩
  · by_cases hm : normEdge a b ∈ edges
    · simp [declare_crossing, hm]
    · simp [declare_crossing, hm]
  · by_cases hm : normEdge a b ∈ edges
    · have hpos : 0 < List.count (normEdge a b) edges := List.count_pos_iff.2 hm
      simp only [declare_crossing, if_pos hm]
      omega
    · have hz : List.count (normEdge a b) edges = 0 := by
        exact List.count_eq_zero.2 hm
      simp [declare_crossing, hm, hz]

/-- Witness for C8: declaring the edge between `sys` and `eth` twice on an
empty tracker leaves exactly one copy, idempotently and symmetrically. -/
theorem declare_crossing_idempotent_witness :
    List.count (normEdge "sys" "eth") [] ≤ 1 ∧
    (declare_crossing (declare_crossing [] "sys" "eth") "sys" "eth" =
        declare_crossing [] "sys" "eth" ∧
      List.count (normEdge "sys" "eth") (declare_crossing [] "sys" "eth") = 1 ∧
      declare_crossing [] "sys" "eth" = declare_crossing [] "eth" "sys") :=
  ⟨by decide, declare_crossing_idempotent [] "sys" "eth" (by decide)⟩

/-! ### Composition and rendering -/

/-- The output of one composition pass (specification section 3,
ResourceMap): the register and interrupt namespaces, the memory regions,
the clock-domain edges, and the constants table. -/
structure ResourceMap where
  registers : Dict
  interrupts : Dict
  memories : List MemoryRegion
  edges : List (String × String)
  constants : Dict
deriving DecidableEq

/-- The starting ordinal for extending a namespace: one past its maximum,
or `0` when the namespace is empty (specification section 4.4 step 2). -/
def nextOrdinal (d : Dict) : Nat :=
  match pyMax (dictValues d) with
  | none => 0
  | some m => m + 1

/-- Allocation of a batch of names into one namespace: the bindings of the
enumeration generator are merged into the map, exactly as `csr_map_update`
merges them. -/
def allocate_batch (d : Dict) (names : List String) : Dict :=
  dictUpdate d (dictOfPairs (newEntries (nextOrdinal d) names))

/-- Folding the overlap-checked region allocation over a list of requested
regions; the first overlap aborts the pass. -/
def add_regions : List MemoryRegion → List MemoryRegion → Except SpecError (List MemoryRegion)
  | acc, [] => Except.ok acc
  | acc, r :: rest =>
    match add_memory_region acc r with
    | Except.error e => Except.error e
    | Except.ok acc2 => add_regions acc2 rest

/-- Modelled from the spec: the Composition Engine operation `compose` of
section 4.4, absent from src/ as one function (the source drives the
external SoC base class from `NeTV2SoC.__init__`). `mutex` lists the
declared mutually-exclusive name pairs, `crossings` the clock-domain pairs
declared by the enabled peripherals. The pass validates mutual exclusion
over the enabled specs failing fast with `ConstraintViolation`, allocates
memory regions rejecting overlap, allocates register and interrupt
ordinals from one past the high-water mark of the base map, merges the
crossings idempotently, and leaves the rest of the base map unchanged. -/
def compose (mutex crossings : List (String × String))
    (base : ResourceMap) (specs : List PeripheralSpec) : Except SpecError ResourceMap :=
  let enabled := specs.filter (fun s => s.enabled)
  if mutex.any (fun pr =>
      enabled.any (fun s => s.name == pr.1) && enabled.any (fun s => s.name == pr.2)) then
    Except.error SpecError.constraintViolation
  else
    match add_regions base.memories
        (enabled.filterMap (fun s =>
          s.memory_request.map (fun br => MemoryRegion.mk s.name br.1 br.2))) with
    | Except.error e => Except.error e
    | Except.ok mems =>
      Except.ok
        { registers := allocate_batch base.registers
            ((enabled.filter (fun s => s.wants_register_window)).map (fun s => s.name)),
          interrupts := allocate_batch base.interrupts
            ((enabled.filter (fun s => s.wants_interrupt)).map (fun s => s.name)),
          memories := mems,
          edges := crossings.foldl (fun es pr => declare_crossing es pr.1 pr.2) base.edges,
          constants := base.constants }

/-- One CSV row per binding of a namespace, with its kind and ordinal. -/
def renderDictRows (kind : String) (d : Dict) : String :=
  d.foldl (fun acc p => acc ++ p.1 ++ "," ++ kind ++ "," ++ toString p.2 ++ "\n") ""

/-- Modelled from the spec: the CSV side of the Descriptor Renderer
(section 4.5), absent from src/ (`generate_software_header` at
src/netv2.py lines 292-296 delegates to `get_csr_header` of the external
export module): one row per named resource with its kind and its ordinal
or address. -/
def renderCSV (m : ResourceMap) : String :=
  renderDictRows "csr" m.registers ++
  renderDictRows "irq" m.interrupts ++
  m.memories.foldl (fun acc r =>
    acc ++ r.name ++ ",mem," ++ toString r.base ++ "," ++ toString r.size ++ "\n") ""

/-- Modelled from the spec: the header side of the Descriptor Renderer
(section 4.5): one named integer constant per register window and per
entry of the constants table. -/
def renderHeader (m : ResourceMap) : String :=
  m.registers.foldl (fun acc p =>
    acc ++ "const " ++ p.1 ++ "_csr = " ++ toString p.2 ++ ";\n") "" ++
  m.constants.foldl (fun acc p =>
    acc ++ "const " ++ p.1 ++ " = " ++ toString p.2 ++ ";\n") ""

/-- The rendered artifacts: the header text and the CSV text. -/
def render (m : ResourceMap) : String × String :=
  (renderHeader m, renderCSV m)

/-- C9: rendering and composition are deterministic. Any two runs of the
composition pipeline on the identical mutual-exclusion table, crossings,
base map and spec sequence produce byte-identical header and CSV text:
the pipeline is a pure function of its inputs, with no ambient state. -/
theorem compose_render_deterministic (mutex crossings : List (String × String))
    (base : ResourceMap) (specs : List PeripheralSpec)
    (out1 out2 : Except SpecError (String × String))
    (h1 : (compose mutex crossings base specs).map render = out1)
    (h2 : (compose mutex crossings base specs).map render = out2) :
    out1 = out2 := by
  rw [← h1, ← h2]

/-- Witness for C9: a concrete composition over a base map with one
register window, one interrupt, one memory region and one constant,
extended by an enabled `ethmac` peripheral, renders to these exact
bytes. -/
theorem compose_render_deterministic_witness :
    (compose [("ethernet", "etherbone")] [("sys", "eth")]
        ⟨[("ctrl", 0)], [("uart", 0)], [⟨"rom", 0, 32768⟩], [], [("config_clock", 100)]⟩
        [⟨"ethmac", true, true, true, some (805306368, 8192)⟩]).map render =
      Except.ok
        ("const ctrl_csr = 0;\nconst ethmac_csr = 1;\nconst config_clock = 100;\n",
          "ctrl,csr,0\nethmac,csr,1\nuart,irq,0\nethmac,irq,1\nrom,mem,0,32768\nethmac,mem,805306368,8192\n") :=
  compose_render_deterministic [("ethernet", "etherbone")] [("sys", "eth")]
    ⟨[("ctrl", 0)], [("uart", 0)], [⟨"rom", 0, 32768⟩], [], [("config_clock", 100)]⟩
    [⟨"ethmac", true, true, true, some (805306368, 8192)⟩]
    ((compose [("ethernet", "etherbone")] [("sys", "eth")]
        ⟨[("ctrl", 0)], [("uart", 0)], [⟨"rom", 0, 32768⟩], [], [("config_clock", 100)]⟩
        [⟨"ethmac", true, true, true, some (805306368, 8192)⟩]).map render)
    (Except.ok
      ("const ctrl_csr = 0;\nconst ethmac_csr = 1;\nconst config_clock = 100;\n",
        "ctrl,csr,0\nethmac,csr,1\nuart,irq,0\nethmac,irq,1\nrom,mem,0,32768\nethmac,mem,805306368,8192\n"))
    rfl rfl
